import Mathlib

/-!
Verification development for the Kakarot serde engine (crates/exex/src/serde.rs):
identifier lookup over a program symbol table, struct-member resolution from
segmented VM memory, and the two-limb Uint256 decoder.

The Rust source is shallowly embedded: field elements are natural numbers,
usize offsets carry the 2^64 bound where the source performs checked addition,
HashMaps are association lists with insert-overwrites semantics, and the Rust
string primitives used by the source (substring containment, split on a dot,
ends-with-char) are defined structurally on lists of characters.
-/

/-- Size in bytes of a 128-bit limb (U128_BYTES_SIZE in the source). -/
def U128_BYTES_SIZE : Nat := 16

/-- Bound of the usize type on the 64-bit targets the source runs on. -/
def USIZE_BOUND : Nat := 2 ^ 64

/-- Relocatable address: a segment index and an offset (cairo-vm Relocatable). -/
structure Relocatable where
  segment_index : Int
  offset : Nat
deriving DecidableEq

/-- A memory cell value: either a field element (canonical Felt252 value,
embedded as a natural number) or a relocatable address stored as data
(cairo-vm MaybeRelocatable). -/
inductive MaybeRelocatable where
  | Int : Nat → MaybeRelocatable
  | RelocatableValue : Relocatable → MaybeRelocatable
deriving DecidableEq

/-- A struct member entry of an identifier: declared type tag and byte offset
(cairo-vm deserialize_program Member). -/
structure Member where
  cairo_type : String
  offset : Nat
deriving DecidableEq

/-- An identifier declaration from the program symbol table
(cairo-vm deserialize_program Identifier). Members are embedded as an
association list standing for the HashMap of the source. -/
structure Identifier where
  pc : Option Nat
  type_ : Option String
  value : Option Nat
  full_name : Option String
  members : Option (List (String × Member))
  cairo_type : Option String
deriving DecidableEq

/-- Error taxonomy of the engine (KakarotSerdeError in the source). The
math/memory variants carry their payload in the source; only their identity
matters here. -/
inductive KakarotSerdeError where
  | IdentifierNotFound (struct_name : String) (expected_type : Option String)
  | MultipleIdentifiersFound (struct_name : String) (expected_type : Option String) (count : Nat)
  | CairoVmMath
  | CairoVmMemory
  | MissingField (field : String)
deriving DecidableEq

/-- Split a character list on the dot separator, mirroring the Rust iterator
s.split(the dot char): the empty input yields one empty segment, and every
dot opens a fresh segment. -/
def splitOnDot : List Char → List (List Char)
  | [] => [[]]
  | c :: rest =>
    if c = '.' then [] :: splitOnDot rest
    else
      match splitOnDot rest with
      | [] => [[c]]
      | s :: ss => (c :: s) :: ss

/-- Join segments with a dot separator: the left inverse of splitOnDot. -/
def joinDot : List (List Char) → List Char
  | [] => []
  | [s] => s
  | s :: ss => s ++ '.' :: joinDot ss

/-- Substring containment on character lists, mirroring Rust str contains:
the needle is a prefix of the haystack or is contained in its tail. -/
def listContainsSub : List Char → List Char → Bool
  | [], needle => needle.isEmpty
  | a :: t, needle => needle.isPrefixOf (a :: t) || listContainsSub t needle

/-- Substring containment on strings (Rust key.contains(struct_name)). -/
def strContains (hay needle : String) : Bool :=
  listContainsSub hay.data needle.data

/-- Final dot-separated segment of a string, mirroring Rust
s.split(dot).last(), an Option that is always some. -/
def lastSeg (s : String) : Option (List Char) :=
  (splitOnDot s.data).getLast?

/-- Whether a string ends with the star character
(Rust cairo_type.ends_with(star)). -/
def endsWithStar (s : String) : Bool :=
  s.data.getLast? == some '*'

/-- Filter predicate of get_identifier: the key contains the queried name as a
substring, the final dot-separated segments agree, and the declared kind tag
equals the expected one. -/
def matchesIdentifier (struct_name : String) (expected_type : Option String)
    (kv : String × Identifier) : Bool :=
  strContains kv.1 struct_name &&
    lastSeg kv.1 == lastSeg struct_name &&
    kv.2.type_ == expected_type

/-- Embedding of KakarotSerde.get_identifier: filter the program identifiers
with matchesIdentifier and match on the number of matches. -/
def get_identifier (idents : List (String × Identifier)) (struct_name : String)
    (expected_type : Option String) : Except KakarotSerdeError Identifier :=
  match (idents.filter (matchesIdentifier struct_name expected_type)).map Prod.snd with
  | [] => .error (.IdentifierNotFound struct_name expected_type)
  | [d] => .ok d
  | ds => .error (.MultipleIdentifiersFound struct_name expected_type ds.length)

/-- Checked relocatable-plus-usize addition (cairo-vm Add of usize for
Relocatable): fails with a math error when the offset overflows usize. -/
def rel_add (p : Relocatable) (off : Nat) : Except KakarotSerdeError Relocatable :=
  if p.offset + off < USIZE_BOUND then .ok ⟨p.segment_index, p.offset + off⟩
  else .error .CairoVmMath

/-- A memory snapshot: best-effort cell lookup (cairo-vm get_maybe). -/
def Memory : Type := Relocatable → Option MaybeRelocatable

/-- HashMap-style insert on an association list: any previous binding of the
key is dropped and the new binding appended. -/
def insertKV (m : List (String × Option MaybeRelocatable)) (k : String)
    (v : Option MaybeRelocatable) : List (String × Option MaybeRelocatable) :=
  m.filter (fun p => p.1 != k) ++ [(k, v)]

/-- HashMap-style lookup on an association list. -/
def hmGet {α : Type} (m : List (String × α)) (k : String) : Option α :=
  (m.find? (fun p => p.1 == k)).map Prod.snd

/-- Member loop of serialize_pointers: for each declared member, compute its
address, read the cell if present, and apply the null-pointer sentinel
policy; absent cells produce no entry. -/
def serialize_members (memory : Memory) (ptr : Relocatable) :
    List (String × Member) → List (String × Option MaybeRelocatable) →
    Except KakarotSerdeError (List (String × Option MaybeRelocatable))
  | [], output => .ok output
  | (name, member) :: rest, output =>
    match rel_add ptr member.offset with
    | .error e => .error e
    | .ok addr =>
      match memory addr with
      | none => serialize_members memory ptr rest output
      | some member_ptr =>
        if member_ptr = MaybeRelocatable.Int 0 ∧ endsWithStar member.cairo_type then
          serialize_members memory ptr rest (insertKV output name none)
        else
          serialize_members memory ptr rest (insertKV output name (some member_ptr))

/-- Embedding of KakarotSerde.serialize_pointers: resolve the struct
declaration, then walk its members. -/
def serialize_pointers (idents : List (String × Identifier)) (memory : Memory)
    (struct_name : String) (ptr : Relocatable) :
    Except KakarotSerdeError (List (String × Option MaybeRelocatable)) :=
  match get_identifier idents struct_name (some "struct") with
  | .error e => .error e
  | .ok identifier =>
    match identifier.members with
    | none => .ok []
    | some members => serialize_members memory ptr members []

/-- Big-endian byte representation with a fixed byte count: the recursive
peeling that underlies Felt252.to_bytes_be. -/
def toBytesBeAux : Nat → Nat → List Nat
  | 0, _ => []
  | n + 1, v => toBytesBeAux n (v / 256) ++ [v % 256]

/-- The 32-byte big-endian representation of a field element
(Felt252.to_bytes_be). -/
def to_bytes_be (v : Nat) : List Nat := toBytesBeAux 32 v

/-- Interpret a big-endian byte slice as an unsigned integer
(U256.from_be_slice). -/
def from_be_slice (bytes : List Nat) : Nat :=
  bytes.foldl (fun acc b => acc * 256 + b) 0

/-- Embedding of KakarotSerde.serialize_uint256: resolve the Uint256 struct,
require integer low and high cells (low checked first), and concatenate the
low 16 bytes of the big-endian representation of high with those of low. -/
def serialize_uint256 (idents : List (String × Identifier)) (memory : Memory)
    (ptr : Relocatable) : Except KakarotSerdeError Nat :=
  match serialize_pointers idents memory "Uint256" ptr with
  | .error e => .error e
  | .ok raw =>
    match hmGet raw "low" with
    | some (some (.Int low)) =>
      match hmGet raw "high" with
      | some (some (.Int high)) =>
        .ok (from_be_slice
          ((to_bytes_be high).drop U128_BYTES_SIZE ++ (to_bytes_be low).drop U128_BYTES_SIZE))
      | _ => .error (.MissingField "high")
    | _ => .error (.MissingField "low")

/-- A scoped name: the dot-separated path of a hierarchical identifier. -/
structure ScopedName where
  path : List String
deriving DecidableEq

/-- Embedding of ScopedName.from_string: the empty string yields the empty
path, any other string is split on dots. -/
def ScopedName.from_string (scope : String) : ScopedName :=
  if scope.data = [] then ⟨[]⟩
  else ⟨(splitOnDot scope.data).map (fun l => ⟨l⟩)⟩

/-- Join a scoped name path with the dot separator. -/
def joinPath (sn : ScopedName) : String :=
  ⟨joinDot (sn.path.map String.data)⟩

/-- Source location metadata (cairo-vm Location): line/column span, input
file name, and an optional parent location with a message. Opaque payload
passed through by the engine. -/
inductive Location where
  | mk (end_line : Nat) (end_col : Nat) (input_file : String)
      (parent_location : Option (Location × String))
      (start_line : Nat) (start_col : Nat)

mutual

/-- The Cairo type descriptor model: felt, pointer, tuple, struct, each with
optional location metadata (CairoType in the source). -/
inductive CairoType where
  | Felt (location : Option Location)
  | Pointer (pointee : CairoType) (location : Option Location)
  | Tuple (members : List TupleItem) (has_trailing_comma : Bool) (location : Option Location)
  | Struct (scope : ScopedName) (location : Option Location)

/-- A tuple item: optional name, type, optional location (TupleItem). -/
inductive TupleItem where
  | mk (name : Option String) (typ : CairoType) (location : Option Location)

end

/-- Constructor CairoType.struct_type of the source. -/
def CairoType.struct_type (scope : String) (location : Option Location) : CairoType :=
  .Struct (ScopedName.from_string scope) location

/-- Constructor CairoType.felt_type of the source. -/
def CairoType.felt_type (location : Option Location) : CairoType :=
  .Felt location

/-- Constructor CairoType.pointer_type of the source. -/
def CairoType.pointer_type (pointee : CairoType) (location : Option Location) : CairoType :=
  .Pointer pointee location

/-- Constructor CairoType.tuple_from_members of the source. -/
def CairoType.tuple_from_members (members : List TupleItem) (has_trailing_comma : Bool)
    (location : Option Location) : CairoType :=
  .Tuple members has_trailing_comma location

/-! ### Concrete fixtures used to instantiate the theorems below -/

/-- Member layout of a Uint256 struct: low at offset 0, high at offset 1. -/
def uint256Members : List (String × Member) := [("low", ⟨"felt", 0⟩), ("high", ⟨"felt", 1⟩)]

/-- A struct declaration for a Uint256. -/
def uint256Ident : Identifier :=
  ⟨none, some "struct", none, some "test.Uint256", some uint256Members, none⟩

/-- A one-entry symbol table holding the Uint256 struct. -/
def identsU : List (String × Identifier) := [("test.Uint256", uint256Ident)]

/-- Member layout mixing a pointer-typed and a felt-typed member. -/
def implicitArgsMembers : List (String × Member) :=
  [("output_ptr", ⟨"felt*", 0⟩), ("range_check_ptr", ⟨"felt", 1⟩)]

/-- A struct declaration with the mixed member layout. -/
def implicitArgsIdent : Identifier :=
  ⟨none, some "struct", none, some "main.ImplicitArgs", some implicitArgsMembers, none⟩

/-- A one-entry symbol table holding the mixed struct. -/
def identsP : List (String × Identifier) := [("main.ImplicitArgs", implicitArgsIdent)]

/-- A struct declaration with no member layout at all. -/
def emptyMembersIdent : Identifier := ⟨none, some "struct", none, some "test.Empty", none, none⟩

/-- A one-entry symbol table holding the member-less struct. -/
def identsE : List (String × Identifier) := [("test.Empty", emptyMembersIdent)]

/-- First of two struct declarations sharing the final segment S. -/
def structIdentA : Identifier := ⟨none, some "struct", none, some "a.S", none, none⟩

/-- Second of two struct declarations sharing the final segment S. -/
def structIdentB : Identifier := ⟨none, some "struct", none, some "b.S", none, none⟩

/-- A table in which the query S matches two declarations. -/
def identsMulti : List (String × Identifier) := [("a.S", structIdentA), ("b.S", structIdentB)]

/-- A memory with no cell written anywhere. -/
def memEmpty : Memory := fun _ => none

/-- A memory storing integer zero at offsets 0 and 1 of segment 0. -/
def memC1 : Memory := fun a =>
  if a = ⟨0, 0⟩ then some (.Int 0) else if a = ⟨0, 1⟩ then some (.Int 0) else none

/-- A memory storing the limbs low = 5 and high = 7. -/
def memU : Memory := fun a =>
  if a = ⟨0, 0⟩ then some (.Int 5) else if a = ⟨0, 1⟩ then some (.Int 7) else none

/-- A memory whose low limb overflows 128 bits. -/
def memU6 : Memory := fun a =>
  if a = ⟨0, 0⟩ then some (.Int (2 ^ 128 + 3)) else if a = ⟨0, 1⟩ then some (.Int 2) else none

/-- A memory storing address values in both limbs of a Uint256. -/
def memC5 : Memory := fun a =>
  if a = ⟨0, 0⟩ then some (.RelocatableValue ⟨9, 9⟩)
  else if a = ⟨0, 1⟩ then some (.RelocatableValue ⟨9, 9⟩) else none

/-- A memory storing a valid low limb and an address-valued high limb. -/
def memC5b : Memory := fun a =>
  if a = ⟨0, 0⟩ then some (.Int 1)
  else if a = ⟨0, 1⟩ then some (.RelocatableValue ⟨9, 9⟩) else none

/-- The resolved struct produced from the mixed layout under memC1. -/
def outC1 : List (String × Option MaybeRelocatable) :=
  [("output_ptr", none), ("range_check_ptr", some (.Int 0))]

/-- The resolved Uint256 struct under memU. -/
def rawU : List (String × Option MaybeRelocatable) :=
  [("low", some (.Int 5)), ("high", some (.Int 7))]

/-- The resolved Uint256 struct under memU6. -/
def rawU6 : List (String × Option MaybeRelocatable) :=
  [("low", some (.Int (2 ^ 128 + 3))), ("high", some (.Int 2))]

/-- The resolved Uint256 struct under memC5. -/
def rawC5 : List (String × Option MaybeRelocatable) :=
  [("low", some (.RelocatableValue ⟨9, 9⟩)), ("high", some (.RelocatableValue ⟨9, 9⟩))]

/-- The resolved Uint256 struct under memC5b. -/
def rawC5b : List (String × Option MaybeRelocatable) :=
  [("low", some (.Int 1)), ("high", some (.RelocatableValue ⟨9, 9⟩))]

/-- A sample source location. -/
def sampleLocation : Location := ⟨100, 454, "test.cairo", none, 34, 234⟩

/-! ### String machinery lemmas -/

/-- Splitting on dots never yields an empty list of segments. -/
theorem splitOnDot_ne_nil (l : List Char) : splitOnDot l ≠ [] := by
  cases l with
  | nil => simp [splitOnDot]
  | cons c rest =>
    simp only [splitOnDot]
    split
    · simp
    · split <;> simp

/-- Reduction of splitOnDot when the head is the separator. -/
theorem splitOnDot_cons_dot (rest : List Char) :
    splitOnDot ('.' :: rest) = [] :: splitOnDot rest := by
  simp [splitOnDot]

/-- Reduction of splitOnDot when the head is not the separator. -/
theorem splitOnDot_cons_of_ne (c : Char) (rest s : List Char) (ss : List (List Char))
    (hc : c ≠ '.') (h : splitOnDot rest = s :: ss) :
    splitOnDot (c :: rest) = (c :: s) :: ss := by
  simp only [splitOnDot, if_neg hc, h]

/-- Reduction of joinDot on a list with at least two segments. -/
theorem joinDot_cons_cons (s t : List Char) (ss : List (List Char)) :
    joinDot (s :: t :: ss) = s ++ '.' :: joinDot (t :: ss) := rfl

/-- Joining the dot-split of a character list restores the list. -/
theorem joinDot_splitOnDot (l : List Char) : joinDot (splitOnDot l) = l := by
  induction l with
  | nil => rfl
  | cons c rest ih =>
    rcases h : splitOnDot rest with _ | ⟨s, ss⟩
    · exact absurd h (splitOnDot_ne_nil rest)
    · rw [h] at ih
      by_cases hc : c = '.'
      · subst hc
        rw [splitOnDot_cons_dot, h, joinDot_cons_cons, ih]
        rfl
      · rw [splitOnDot_cons_of_ne c rest s ss hc h]
        cases ss with
        | nil =>
          simp only [joinDot] at ih ⊢
          rw [ih]
        | cons t ts =>
          rw [joinDot_cons_cons] at ih
          rw [joinDot_cons_cons, List.cons_append, ih]

/-- When a character list is nonempty and does not end in a dot, the final
segment of its dot-split is nonempty. -/
theorem splitOnDot_getLast?_ne_nil (l : List Char) (hne : l ≠ [])
    (hdot : l.getLast? ≠ some '.') :
    ∀ seg, (splitOnDot l).getLast? = some seg → seg ≠ [] := by
  induction l with
  | nil => exact absurd rfl hne
  | cons c rest ih =>
    intro seg hseg
    cases rest with
    | nil =>
      have hc : c ≠ '.' := by
        intro h
        exact hdot (by simp [h])
      rw [splitOnDot_cons_of_ne c [] [] [] hc rfl] at hseg
      simp at hseg
      subst hseg
      simp
    | cons r rs =>
      have hdot2 : (r :: rs).getLast? ≠ some '.' := by
        rwa [List.getLast?_cons_cons] at hdot
      have ih2 := ih (by simp) hdot2
      rcases h : splitOnDot (r :: rs) with _ | ⟨s, ss⟩
      · exact absurd h (splitOnDot_ne_nil _)
      · by_cases hc : c = '.'
        · subst hc
          rw [splitOnDot_cons_dot, h, List.getLast?_cons_cons] at hseg
          exact ih2 seg (by rw [h]; exact hseg)
        · rw [splitOnDot_cons_of_ne c (r :: rs) s ss hc h] at hseg
          cases ss with
          | nil =>
            simp at hseg
            subst hseg
            simp
          | cons t ts =>
            rw [List.getLast?_cons_cons] at hseg
            exact ih2 seg (by rw [h, List.getLast?_cons_cons]; exact hseg)

/-- The substring test agrees with the infix relation on lists. -/
theorem listContainsSub_correct (hay needle : List Char) :
    listContainsSub hay needle = true ↔ needle <:+: hay := by
  induction hay with
  | nil =>
    cases needle <;> simp [listContainsSub, List.isEmpty]
  | cons a t ih =>
    rw [List.infix_cons_iff, ← ih]
    simp [listContainsSub]

/-! ### Association-list (HashMap) lemmas -/

/-- Lookup after a cons reduces on the head key. -/
theorem hmGet_cons {α : Type} (a : String) (b : α) (m : List (String × α)) (k : String) :
    hmGet ((a, b) :: m) k = if a = k then some b else hmGet m k := by
  by_cases h : a = k
  · simp [hmGet, List.find?_cons, h]
  · simp [hmGet, List.find?_cons, h]

/-- Lookup after a HashMap-style insert: the inserted key reads back the new
value, every other key is unaffected. -/
theorem hmGet_insertKV (m : List (String × Option MaybeRelocatable)) (k k2 : String)
    (v : Option MaybeRelocatable) :
    hmGet (insertKV m k v) k2 = if k2 = k then some v else hmGet m k2 := by
  induction m with
  | nil =>
    show hmGet ((k, v) :: []) k2 = _
    rw [hmGet_cons]
    by_cases h : k = k2
    · rw [if_pos h, if_pos h.symm]
    · rw [if_neg h, if_neg (fun hh => h hh.symm)]
  | cons p m ih =>
    obtain ⟨a, b⟩ := p
    by_cases hak : a = k
    · have hdrop : insertKV ((a, b) :: m) k v = insertKV m k v := by
        simp [insertKV, hak]
      rw [hdrop, ih]
      by_cases h2 : k2 = k
      · rw [if_pos h2, if_pos h2]
      · rw [if_neg h2, if_neg h2, hmGet_cons,
          if_neg (fun hh => h2 (by rw [← hh, hak]))]
    · have hkeep : insertKV ((a, b) :: m) k v = (a, b) :: insertKV m k v := by
        simp [insertKV, hak]
      rw [hkeep, hmGet_cons, hmGet_cons]
      by_cases hak2 : a = k2
      · have hk2k : k2 ≠ k := fun hh => hak (hak2.trans hh)
        rw [if_pos hak2, if_neg hk2k, if_pos hak2]
      · rw [if_neg hak2, if_neg hak2, ih]

/-! ### Lemmas about the member-resolution loop -/

/-- A name that does not occur among the walked members keeps whatever binding
the accumulator already gave it. -/
theorem serialize_members_not_mem (memory : Memory) (ptr : Relocatable)
    (ms : List (String × Member)) (out final : List (String × Option MaybeRelocatable))
    (name : String)
    (hname : name ∉ ms.map Prod.fst)
    (h : serialize_members memory ptr ms out = .ok final) :
    hmGet final name = hmGet out name := by
  induction ms generalizing out with
  | nil =>
    simp only [serialize_members] at h
    cases h
    rfl
  | cons p rest ih =>
    obtain ⟨nm, mb⟩ := p
    have hname1 : nm ≠ name := by
      intro hh
      exact hname (by simp [hh])
    have hname2 : name ∉ rest.map Prod.fst := by
      intro hh
      exact hname (by simp [hh])
    simp only [serialize_members] at h
    split at h
    · exact Except.noConfusion h
    · split at h
      · exact ih out hname2 h
      · split at h
        · rw [ih _ hname2 h, hmGet_insertKV, if_neg (fun hh => hname1 hh.symm)]
        · rw [ih _ hname2 h, hmGet_insertKV, if_neg (fun hh => hname1 hh.symm)]

/-- Per-member policy of the resolution loop: when the loop succeeds and the
member names are distinct, a member whose cell is present maps to none
exactly when the cell is the integer zero and its type tag ends in a star,
and to the unchanged cell otherwise. -/
theorem serialize_members_policy (memory : Memory) (ptr : Relocatable)
    (ms : List (String × Member)) (out final : List (String × Option MaybeRelocatable))
    (name : String) (member : Member) (addr : Relocatable) (cell : MaybeRelocatable)
    (hnodup : (ms.map Prod.fst).Nodup)
    (hmem : (name, member) ∈ ms)
    (ha : rel_add ptr member.offset = .ok addr)
    (hc : memory addr = some cell)
    (h : serialize_members memory ptr ms out = .ok final) :
    hmGet final name =
      some (if cell = MaybeRelocatable.Int 0 ∧ endsWithStar member.cairo_type then none
            else some cell) := by
  induction ms generalizing out with
  | nil => cases hmem
  | cons p rest ih =>
    obtain ⟨nm, mb⟩ := p
    have hnodup2 : (rest.map Prod.fst).Nodup := by
      simp only [List.map_cons, List.nodup_cons] at hnodup
      exact hnodup.2
    rcases List.mem_cons.mp hmem with heq | hmem2
    · obtain ⟨h1, h2⟩ := Prod.mk.inj heq
      subst h1
      subst h2
      have hnotin : name ∉ rest.map Prod.fst := by
        simp only [List.map_cons, List.nodup_cons] at hnodup
        exact hnodup.1
      simp only [serialize_members] at h
      split at h
      · exact Except.noConfusion h
      · rename_i addr2 ha2
        rw [ha] at ha2
        injection ha2 with ha3
        subst ha3
        split at h
        · rename_i hm2
          rw [hc] at hm2
          exact Option.noConfusion hm2
        · rename_i cell2 hm2
          rw [hc] at hm2
          injection hm2 with hm3
          subst hm3
          split at h
          · rename_i hcond
            rw [serialize_members_not_mem memory ptr rest _ _ name hnotin h,
              hmGet_insertKV, if_pos rfl, if_pos hcond]
          · rename_i hcond
            rw [serialize_members_not_mem memory ptr rest _ _ name hnotin h,
              hmGet_insertKV, if_pos rfl, if_neg hcond]
    · simp only [serialize_members] at h
      split at h
      · exact Except.noConfusion h
      · split at h
        · exact ih out hnodup2 hmem2 h
        · split at h
          · exact ih _ hnodup2 hmem2 h
          · exact ih _ hnodup2 hmem2 h

/-- When every member address resolves but reads an absent cell, the loop
returns its accumulator unchanged. -/
theorem serialize_members_all_absent (memory : Memory) (ptr : Relocatable)
    (ms : List (String × Member)) (out : List (String × Option MaybeRelocatable))
    (habs : ∀ p ∈ ms, ∃ addr, rel_add ptr p.2.offset = .ok addr ∧ memory addr = none) :
    serialize_members memory ptr ms out = .ok out := by
  induction ms with
  | nil => rfl
  | cons p rest ih =>
    obtain ⟨nm, mb⟩ := p
    obtain ⟨addr, ha, hm⟩ := habs (nm, mb) (List.mem_cons_self _ _)
    have hrest := ih (fun q hq => habs q (List.mem_cons_of_mem _ hq))
    simp only [serialize_members, ha, hm]
    exact hrest

/-! ### Big-endian byte conversion lemmas -/

/-- The fixed-width byte representation has exactly the requested length. -/
theorem toBytesBeAux_length (n : Nat) : ∀ v : Nat, (toBytesBeAux n v).length = n := by
  induction n with
  | zero => intro v; rfl
  | succ n ih => intro v; simp [toBytesBeAux, ih]

/-- Folding the big-endian interpretation from an arbitrary accumulator. -/
theorem from_be_slice_acc (bytes : List Nat) (a : Nat) :
    bytes.foldl (fun acc b => acc * 256 + b) a =
      a * 256 ^ bytes.length + bytes.foldl (fun acc b => acc * 256 + b) 0 := by
  induction bytes generalizing a with
  | nil => simp
  | cons b t ih =>
    simp only [List.foldl_cons, List.length_cons]
    rw [ih (a * 256 + b), ih (0 * 256 + b)]
    ring

/-- Big-endian interpretation of a concatenation. -/
theorem from_be_slice_append (xs ys : List Nat) :
    from_be_slice (xs ++ ys) = from_be_slice xs * 256 ^ ys.length + from_be_slice ys := by
  unfold from_be_slice
  rw [List.foldl_append, from_be_slice_acc]

/-- Interpreting the n-byte big-endian representation recovers the value
modulo 256 to the n. -/
theorem from_be_slice_toBytesBeAux (n : Nat) : ∀ v : Nat,
    from_be_slice (toBytesBeAux n v) = v % 256 ^ n := by
  induction n with
  | zero => intro v; simp [toBytesBeAux, from_be_slice, Nat.mod_one]
  | succ n ih =>
    intro v
    rw [show toBytesBeAux (n + 1) v = toBytesBeAux n (v / 256) ++ [v % 256] from rfl,
      from_be_slice_append, ih]
    have h1 : from_be_slice [v % 256] = v % 256 := by simp [from_be_slice]
    have h2 : ([v % 256] : List Nat).length = 1 := rfl
    have hp : (256 : Nat) ^ (n + 1) = 256 * 256 ^ n := by ring
    rw [h1, h2, pow_one, hp, Nat.mod_mul]
    ring

/-- Splitting the fixed-width big-endian representation: the first m bytes
describe the value shifted right by n bytes, the last n bytes the value
itself. -/
theorem toBytesBeAux_add (m n : Nat) : ∀ v : Nat,
    toBytesBeAux (m + n) v = toBytesBeAux m (v / 256 ^ n) ++ toBytesBeAux n v := by
  induction n with
  | zero => intro v; simp [toBytesBeAux]
  | succ n ih =>
    intro v
    rw [show toBytesBeAux (m + (n + 1)) v = toBytesBeAux (m + n) (v / 256) ++ [v % 256] from rfl,
      ih (v / 256),
      show toBytesBeAux (n + 1) v = toBytesBeAux n (v / 256) ++ [v % 256] from rfl,
      List.append_assoc]
    have hdiv : v / 256 / 256 ^ n = v / 256 ^ (n + 1) := by
      rw [Nat.div_div_eq_div_mul]
      congr 1
      ring
    rw [hdiv]

/-- Dropping the first 16 bytes of the 32-byte representation keeps exactly
the low 16 bytes. -/
theorem to_bytes_be_drop16 (v : Nat) :
    (to_bytes_be v).drop U128_BYTES_SIZE = toBytesBeAux 16 v := by
  have h : to_bytes_be v = toBytesBeAux 16 (v / 256 ^ 16) ++ toBytesBeAux 16 v :=
    toBytesBeAux_add 16 16 v
  have hdrop := List.drop_left (toBytesBeAux 16 (v / 256 ^ 16)) (toBytesBeAux 16 v)
  rw [toBytesBeAux_length] at hdrop
  rw [h]
  exact hdrop

/-- The value assembled by serialize_uint256 from the two limbs: the low 128
bits of high shifted up by 128 bits plus the low 128 bits of low. -/
theorem uint256_concat_value (l h : Nat) :
    from_be_slice
        ((to_bytes_be h).drop U128_BYTES_SIZE ++ (to_bytes_be l).drop U128_BYTES_SIZE) =
      h % 2 ^ 128 * 2 ^ 128 + l % 2 ^ 128 := by
  have hpow : (256 : Nat) ^ 16 = 2 ^ 128 := by norm_num
  rw [to_bytes_be_drop16, to_bytes_be_drop16, from_be_slice_append,
    from_be_slice_toBytesBeAux, from_be_slice_toBytesBeAux, toBytesBeAux_length, hpow]

/-! ### Claim theorems -/

/-- C1: for every declared struct member processed by serialize_pointers whose
cell is present, the member maps to none exactly when the cell is the integer
zero and the declared type tag ends in a star; in every other case (address
value, non-zero integer, or integer zero with a non-pointer tag) it maps to
the unchanged cell wrapped in some. -/
theorem c1_member_sentinel_policy
    (idents : List (String × Identifier)) (memory : Memory) (struct_name : String)
    (ptr : Relocatable) (ident : Identifier) (ms : List (String × Member))
    (name : String) (member : Member) (addr : Relocatable) (cell : MaybeRelocatable)
    (out : List (String × Option MaybeRelocatable))
    (hid : get_identifier idents struct_name (some "struct") = .ok ident)
    (hms : ident.members = some ms)
    (hnodup : (ms.map Prod.fst).Nodup)
    (hmem : (name, member) ∈ ms)
    (ha : rel_add ptr member.offset = .ok addr)
    (hc : memory addr = some cell)
    (hout : serialize_pointers idents memory struct_name ptr = .ok out) :
    hmGet out name =
      some (if cell = MaybeRelocatable.Int 0 ∧ endsWithStar member.cairo_type then none
            else some cell) := by
  simp only [serialize_pointers, hid, hms] at hout
  exact serialize_members_policy memory ptr ms [] out name member addr cell hnodup hmem ha hc hout

/-- Witness for C1: in the mixed fixture, the pointer-typed member holding
integer zero reads back as none and the felt-typed member holding integer
zero reads back as some integer zero. -/
theorem c1_witness :
    hmGet outC1 "output_ptr" = some none ∧
      hmGet outC1 "range_check_ptr" = some (some (MaybeRelocatable.Int 0)) :=
  ⟨(c1_member_sentinel_policy identsP memC1 "main.ImplicitArgs" ⟨0, 0⟩ implicitArgsIdent
      implicitArgsMembers "output_ptr" ⟨"felt*", 0⟩ ⟨0, 0⟩ (MaybeRelocatable.Int 0) outC1
      rfl rfl (by decide) (by decide) rfl rfl rfl).trans (by decide),
    (c1_member_sentinel_policy identsP memC1 "main.ImplicitArgs" ⟨0, 0⟩ implicitArgsIdent
      implicitArgsMembers "range_check_ptr" ⟨"felt", 1⟩ ⟨0, 1⟩ (MaybeRelocatable.Int 0) outC1
      rfl rfl (by decide) (by decide) rfl rfl rfl).trans (by decide)⟩

/-- C2: when the Uint256 struct resolves with integer entries low and high,
each below 2 to the 128, serialize_uint256 returns high shifted up by 128
bits plus low. -/
theorem c2_uint256_decode
    (idents : List (String × Identifier)) (memory : Memory) (ptr : Relocatable)
    (raw : List (String × Option MaybeRelocatable)) (l h : Nat)
    (hraw : serialize_pointers idents memory "Uint256" ptr = .ok raw)
    (hlow : hmGet raw "low" = some (some (.Int l)))
    (hhigh : hmGet raw "high" = some (some (.Int h)))
    (hl : l < 2 ^ 128) (hh : h < 2 ^ 128) :
    serialize_uint256 idents memory ptr = .ok (h * 2 ^ 128 + l) := by
  simp only [serialize_uint256, hraw, hlow, hhigh, Except.ok.injEq]
  rw [uint256_concat_value, Nat.mod_eq_of_lt hl, Nat.mod_eq_of_lt hh]

/-- Witness for C2: decoding the limbs low = 5, high = 7 yields the 256-bit
value 7 shifted up by 128 bits plus 5. -/
theorem c2_witness : serialize_uint256 identsU memU ⟨0, 0⟩ = .ok (7 * 2 ^ 128 + 5) :=
  c2_uint256_decode identsU memU ⟨0, 0⟩ rawU 5 7 rfl rfl rfl (by norm_num) (by norm_num)

/-- C3: the lookup filter counts a declaration as a match exactly when the
queried name is a substring of the key, the final dot-separated segments of
key and query agree, and the declared kind tag equals the expected one,
including the case where both are absent. -/
theorem c3_matching_rule (struct_name key : String) (expected_type : Option String)
    (d : Identifier) :
    matchesIdentifier struct_name expected_type (key, d) = true ↔
      (List.IsInfix struct_name.data key.data ∧
        (splitOnDot key.data).getLast? = (splitOnDot struct_name.data).getLast? ∧
        d.type_ = expected_type) := by
  simp only [matchesIdentifier, strContains, lastSeg, Bool.and_eq_true, beq_iff_eq,
    listContainsSub_correct, and_assoc]

/-- Witness for C3: the matching rule instantiated at the Uint256 fixture. -/
theorem c3_witness :
    matchesIdentifier "Uint256" (some "struct") ("test.Uint256", uint256Ident) = true ↔
      (List.IsInfix "Uint256".data "test.Uint256".data ∧
        (splitOnDot "test.Uint256".data).getLast? = (splitOnDot "Uint256".data).getLast? ∧
        uint256Ident.type_ = some "struct") :=
  c3_matching_rule "Uint256" "test.Uint256" (some "struct") uint256Ident

/-- C4: get_identifier returns the unique matching declaration unchanged, a
not-found error carrying the exact name and expected kind when nothing
matches, and an ambiguous-match error carrying name, expected kind and the
match count when more than one declaration matches. -/
theorem c4_lookup_result (idents : List (String × Identifier)) (struct_name : String)
    (expected_type : Option String) :
    (∀ d : Identifier,
        (idents.filter (matchesIdentifier struct_name expected_type)).map Prod.snd = [d] →
          get_identifier idents struct_name expected_type = .ok d) ∧
      ((idents.filter (matchesIdentifier struct_name expected_type)).map Prod.snd = [] →
        get_identifier idents struct_name expected_type =
          .error (.IdentifierNotFound struct_name expected_type)) ∧
      (2 ≤ ((idents.filter (matchesIdentifier struct_name expected_type)).map Prod.snd).length →
        get_identifier idents struct_name expected_type =
          .error (.MultipleIdentifiersFound struct_name expected_type
            ((idents.filter (matchesIdentifier struct_name expected_type)).map
              Prod.snd).length)) := by
  refine ⟨?_, ?_, ?_⟩
  · intro d hd
    simp only [get_identifier, hd]
  · intro h0
    simp only [get_identifier, h0]
  · intro h2
    rcases hl : (idents.filter (matchesIdentifier struct_name expected_type)).map Prod.snd
      with _ | ⟨a, _ | ⟨b, rest⟩⟩
    · rw [hl] at h2
      simp at h2
    · rw [hl] at h2
      simp at h2
    · simp only [get_identifier, hl]

/-- Witness for C4: one-match, zero-match and two-match lookups on concrete
tables. -/
theorem c4_witness :
    get_identifier identsU "Uint256" (some "struct") = .ok uint256Ident ∧
      get_identifier identsU "Nope" (some "struct") =
        .error (.IdentifierNotFound "Nope" (some "struct")) ∧
      get_identifier identsMulti "S" (some "struct") =
        .error (.MultipleIdentifiersFound "S" (some "struct") 2) :=
  ⟨(c4_lookup_result identsU "Uint256" (some "struct")).1 uint256Ident (by decide),
    (c4_lookup_result identsU "Nope" (some "struct")).2.1 (by decide),
    (c4_lookup_result identsMulti "S" (some "struct")).2.2 (by decide)⟩

/-- C5 counterexample: with both limbs stored as address values, the high
entry is invalid yet the decoder reports the missing field low, not high, so
the failure for high is not independent of the low entry. -/
theorem c5_counterexample :
    serialize_uint256 identsU memC5 ⟨0, 0⟩ = .error (.MissingField "low") ∧
      KakarotSerdeError.MissingField "low" ≠ KakarotSerdeError.MissingField "high" :=
  ⟨rfl, by decide⟩

/-- C5 (amended): the decoder fails with the missing field low whenever the
low entry is absent, none, or an address value, regardless of high; it fails
with the missing field high when the low entry is a valid integer and the
high entry is absent, none, or an address value. Low is checked first. -/
theorem c5_missing_field_order
    (idents : List (String × Identifier)) (memory : Memory) (ptr : Relocatable)
    (raw : List (String × Option MaybeRelocatable))
    (hraw : serialize_pointers idents memory "Uint256" ptr = .ok raw) :
    ((∀ v : Nat, hmGet raw "low" ≠ some (some (.Int v))) →
        serialize_uint256 idents memory ptr = .error (.MissingField "low")) ∧
      (∀ v : Nat, hmGet raw "low" = some (some (.Int v)) →
        (∀ w : Nat, hmGet raw "high" ≠ some (some (.Int w))) →
        serialize_uint256 idents memory ptr = .error (.MissingField "high")) := by
  constructor
  · intro hlow
    rcases hg : hmGet raw "low" with _ | mv
    · simp only [serialize_uint256, hraw, hg]
    · rcases mv with _ | cell
      · simp only [serialize_uint256, hraw, hg]
      · rcases cell with n | r
        · exact absurd hg (hlow n)
        · simp only [serialize_uint256, hraw, hg]
  · intro v hlow hhigh
    rcases hg : hmGet raw "high" with _ | mw
    · simp only [serialize_uint256, hraw, hlow, hg]
    · rcases mw with _ | cell
      · simp only [serialize_uint256, hraw, hlow, hg]
      · rcases cell with n | r
        · exact absurd hg (hhigh n)
        · simp only [serialize_uint256, hraw, hlow, hg]

/-- Witness for the amended C5: both invalid limbs report low missing; a
valid low with an address-valued high reports high missing. -/
theorem c5_witness :
    serialize_uint256 identsU memC5 ⟨0, 0⟩ = .error (.MissingField "low") ∧
      serialize_uint256 identsU memC5b ⟨0, 0⟩ = .error (.MissingField "high") :=
  ⟨(c5_missing_field_order identsU memC5 ⟨0, 0⟩ rawC5 rfl).1
      (by
        intro v hv
        have hev : hmGet rawC5 "low" = some (some (.RelocatableValue ⟨9, 9⟩)) := rfl
        rw [hev] at hv
        simp at hv),
    (c5_missing_field_order identsU memC5b ⟨0, 0⟩ rawC5b rfl).2 1 rfl
      (by
        intro w hw
        have hev : hmGet rawC5b "high" = some (some (.RelocatableValue ⟨9, 9⟩)) := rfl
        rw [hev] at hw
        simp at hw)⟩

/-- C6: for integer limbs of any size, serialize_uint256 returns high modulo
2 to the 128 shifted up by 128 bits plus low modulo 2 to the 128; bits at or
above 2 to the 128 in either limb are silently dropped. -/
theorem c6_uint256_mod
    (idents : List (String × Identifier)) (memory : Memory) (ptr : Relocatable)
    (raw : List (String × Option MaybeRelocatable)) (l h : Nat)
    (hraw : serialize_pointers idents memory "Uint256" ptr = .ok raw)
    (hlow : hmGet raw "low" = some (some (.Int l)))
    (hhigh : hmGet raw "high" = some (some (.Int h))) :
    serialize_uint256 idents memory ptr = .ok (h % 2 ^ 128 * 2 ^ 128 + l % 2 ^ 128) := by
  simp only [serialize_uint256, hraw, hlow, hhigh, Except.ok.injEq]
  exact uint256_concat_value l h

/-- Witness for C6: a low limb holding 2 to the 128 plus 3 loses its top bit
and decodes as 3, with high = 2 contributing the upper 128 bits. -/
theorem c6_witness : serialize_uint256 identsU memU6 ⟨0, 0⟩ = .ok (2 * 2 ^ 128 + 3) :=
  (c6_uint256_mod identsU memU6 ⟨0, 0⟩ rawU6 (2 ^ 128 + 3) 2 rfl rfl rfl).trans
    (congrArg Except.ok (by norm_num))

/-- C7: serialize_pointers returns an empty map, not an error, both when the
resolved declaration has no member layout and when every member address
resolves but holds no written cell. -/
theorem c7_empty_results
    (idents : List (String × Identifier)) (memory : Memory) (struct_name : String)
    (ptr : Relocatable) (ident : Identifier)
    (hid : get_identifier idents struct_name (some "struct") = .ok ident) :
    (ident.members = none → serialize_pointers idents memory struct_name ptr = .ok []) ∧
      (∀ ms : List (String × Member), ident.members = some ms →
        (∀ p ∈ ms, ∃ addr, rel_add ptr p.2.offset = .ok addr ∧ memory addr = none) →
        serialize_pointers idents memory struct_name ptr = .ok []) := by
  constructor
  · intro hnone
    simp only [serialize_pointers, hid, hnone]
  · intro ms hms habs
    simp only [serialize_pointers, hid, hms]
    exact serialize_members_all_absent memory ptr ms [] habs

/-- Witness for C7: a member-less struct and a Uint256 struct over an
entirely unwritten memory both resolve to the empty map. -/
theorem c7_witness :
    serialize_pointers identsE memEmpty "test.Empty" ⟨0, 0⟩ = .ok [] ∧
      serialize_pointers identsU memEmpty "Uint256" ⟨0, 0⟩ = .ok [] :=
  ⟨(c7_empty_results identsE memEmpty "test.Empty" ⟨0, 0⟩ emptyMembersIdent rfl).1 rfl,
    (c7_empty_results identsU memEmpty "Uint256" ⟨0, 0⟩ uint256Ident rfl).2 uint256Members rfl
      (by
        intro p hp
        have hp2 : p = ("low", ⟨"felt", 0⟩) ∨ p = ("high", ⟨"felt", 1⟩) := by
          simpa [uint256Members] using hp
        rcases hp2 with rfl | rfl
        · exact ⟨⟨0, 0⟩, rfl, rfl⟩
        · exact ⟨⟨0, 1⟩, rfl, rfl⟩)⟩

/-- C8: for every string with no empty dot-separated segments, joining the
path produced by from_string with a dot restores the string, and from_string
of the empty string yields the empty path. -/
theorem c8_roundtrip :
    (∀ s : String, (∀ seg ∈ splitOnDot s.data, seg ≠ []) →
        joinPath (ScopedName.from_string s) = s) ∧
      (ScopedName.from_string "").path = [] := by
  constructor
  · intro s _hseg
    by_cases hs : s.data = []
    · show joinPath (ScopedName.from_string s) = s
      unfold ScopedName.from_string
      rw [if_pos hs]
      show String.mk (joinDot []) = s
      rw [show joinDot [] = [] from rfl, ← hs]
    · unfold ScopedName.from_string joinPath
      rw [if_neg hs]
      simp only [List.map_map]
      have hcomp : (String.data ∘ fun l : List Char => (⟨l⟩ : String)) = id := rfl
      rw [hcomp, List.map_id, joinDot_splitOnDot]
  · rfl

/-- Witness for C8: the round trip on a three-segment dotted name. -/
theorem c8_witness :
    joinPath (ScopedName.from_string "starkware.cairo.common") = "starkware.cairo.common" :=
  c8_roundtrip.1 "starkware.cairo.common" (by decide)

/-- C9: structural equality on the type descriptor model is reflexive,
holds per constructor exactly when all payloads including the optional
location agree, distinguishes different constructors, and separates a
descriptor built with a location from the same one built without. -/
theorem c9_structural_equality :
    (∀ t : CairoType, t = t) ∧
      (∀ l1 l2 : Option Location, CairoType.Felt l1 = CairoType.Felt l2 ↔ l1 = l2) ∧
      (∀ (p1 p2 : CairoType) (l1 l2 : Option Location),
        CairoType.Pointer p1 l1 = CairoType.Pointer p2 l2 ↔ p1 = p2 ∧ l1 = l2) ∧
      (∀ (m1 m2 : List TupleItem) (c1 c2 : Bool) (l1 l2 : Option Location),
        CairoType.Tuple m1 c1 l1 = CairoType.Tuple m2 c2 l2 ↔ m1 = m2 ∧ c1 = c2 ∧ l1 = l2) ∧
      (∀ (s1 s2 : ScopedName) (l1 l2 : Option Location),
        CairoType.Struct s1 l1 = CairoType.Struct s2 l2 ↔ s1 = s2 ∧ l1 = l2) ∧
      (∀ loc : Location, CairoType.felt_type (some loc) ≠ CairoType.felt_type none) ∧
      (∀ (p : CairoType) (loc : Location),
        CairoType.pointer_type p (some loc) ≠ CairoType.pointer_type p none) ∧
      (∀ (ms : List TupleItem) (c : Bool) (loc : Location),
        CairoType.tuple_from_members ms c (some loc) ≠ CairoType.tuple_from_members ms c none) ∧
      (∀ (sc : String) (loc : Location),
        CairoType.struct_type sc (some loc) ≠ CairoType.struct_type sc none) ∧
      (∀ (l1 : Option Location) (p : CairoType) (l2 : Option Location),
        CairoType.Felt l1 ≠ CairoType.Pointer p l2) ∧
      (∀ (l1 : Option Location) (ms : List TupleItem) (c : Bool) (l2 : Option Location),
        CairoType.Felt l1 ≠ CairoType.Tuple ms c l2) ∧
      (∀ (l1 : Option Location) (sc : ScopedName) (l2 : Option Location),
        CairoType.Felt l1 ≠ CairoType.Struct sc l2) ∧
      (∀ (p : CairoType) (l1 : Option Location) (ms : List TupleItem) (c : Bool)
        (l2 : Option Location), CairoType.Pointer p l1 ≠ CairoType.Tuple ms c l2) ∧
      (∀ (p : CairoType) (l1 : Option Location) (sc : ScopedName) (l2 : Option Location),
        CairoType.Pointer p l1 ≠ CairoType.Struct sc l2) ∧
      (∀ (ms : List TupleItem) (c : Bool) (l1 : Option Location) (sc : ScopedName)
        (l2 : Option Location), CairoType.Tuple ms c l1 ≠ CairoType.Struct sc l2) := by
  refine ⟨fun t => rfl, ?_, ?_, ?_, ?_, ?_, ?_, ?_, ?_, ?_, ?_, ?_, ?_, ?_, ?_⟩ <;>
    intros <;>
    simp [CairoType.felt_type, CairoType.pointer_type, CairoType.tuple_from_members,
      CairoType.struct_type]

/-- Witness for C9: a felt descriptor carrying the sample location differs
from the same descriptor without a location. -/
theorem c9_witness :
    CairoType.felt_type (some sampleLocation) ≠ CairoType.felt_type none :=
  c9_structural_equality.2.2.2.2.2.1 sampleLocation

/-- C10: over a table whose keys are nonempty and do not end in a dot, the
empty query name is a substring of every key yet matches nothing, because its
final segment is empty while every final key segment is not, so the lookup
reports not found. -/
theorem c10_empty_name_not_found (idents : List (String × Identifier))
    (expected_type : Option String)
    (hk : ∀ kv ∈ idents, kv.1 ≠ "" ∧ kv.1.data.getLast? ≠ some '.') :
    (∀ kv ∈ idents, strContains kv.1 "" = true) ∧
      get_identifier idents "" expected_type =
        .error (.IdentifierNotFound "" expected_type) := by
  constructor
  · intro kv _
    exact (listContainsSub_correct kv.1.data []).mpr List.nil_infix
  · have hfilter : idents.filter (matchesIdentifier "" expected_type) = [] := by
      rw [List.filter_eq_nil_iff]
      intro kv hkv
      obtain ⟨hne, hdot⟩ := hk kv hkv
      have hdata : kv.1.data ≠ [] := by
        intro hd
        apply hne
        have hmk : kv.1 = String.mk kv.1.data := rfl
        rw [hmk, hd]
      intro hmatch
      simp only [matchesIdentifier, Bool.and_eq_true, beq_iff_eq, lastSeg] at hmatch
      obtain ⟨⟨_hsub, hlast⟩, _htype⟩ := hmatch
      rcases hg : (splitOnDot kv.1.data).getLast? with _ | seg
      · exact splitOnDot_ne_nil kv.1.data (List.getLast?_eq_none_iff.mp hg)
      · have hsegne := splitOnDot_getLast?_ne_nil kv.1.data hdata hdot seg hg
        rw [hg] at hlast
        have h0 : (splitOnDot ("" : String).data).getLast? = some ([] : List Char) := rfl
        rw [h0] at hlast
        exact hsegne (Option.some.inj hlast)
    simp only [get_identifier, hfilter, List.map_nil]

/-- Witness for C10: the empty query on the Uint256 table reports not
found. -/
theorem c10_witness :
    get_identifier identsU "" (some "struct") =
      .error (.IdentifierNotFound "" (some "struct")) :=
  (c10_empty_name_not_found identsU (some "struct") (by decide)).2
